import Mathlib

/-!
Verification of the Dusty efficiency linter (`src/tools/dusty/index.js`).

The development shallowly embeds the linter's core: the heavy-dependency
matcher `isHeavyDependency`, the recursive AST walker `walkNode` inside
`checkLazyImportHeavyDeps` (with its function-nesting depth counter and its
two accumulator sets), the diagnostic emission, and the two-attempt parse
orchestration of `lint` / `lintFiles`.  JavaScript AST nodes are modelled as
a first-order tree: a node has a `type` string and an ordered list of named
fields, where a field value is a primitive (skipped by the walker), a single
child object, or an array of child objects — exactly the shapes the walker's
`for (const key in node)` loop distinguishes.  The external acorn parser is
a black box; it is modelled abstractly where a claim depends on it.
-/

namespace Dusty

/-- A primitive (non-object) JavaScript value sitting in an AST node field.
The walker skips these (`typeof child !== 'object'`); the classifier only
ever reads string-valued ones (`typeof arg.value === 'string'`). -/
inductive Prim where
  | str : String → Prim
  | num : Prim
  | boolean : Prim
  | nullOrOther : Prim
deriving DecidableEq

mutual

/-- A JavaScript AST node: its `type` tag and its remaining fields in object
insertion order (the order `for (const key in node)` enumerates them).
A node whose `type` is the empty string models an object with a missing or
falsy `type`, which the walker refuses to recurse into (`else if (child.type)`). -/
inductive Node : Type where
  | mk : String → NodeFields → Node

/-- The ordered named fields of a node. -/
inductive NodeFields : Type where
  | nil : NodeFields
  | fcons : String → NodeField → NodeFields → NodeFields

/-- One field value: a primitive, a single child object, or an array.
Array elements that are not objects carrying a truthy `type` are modelled as
nodes with an empty `type` string, which the walker skips, matching
`if (c && typeof c === 'object' && c.type) walkNode(c)`. -/
inductive NodeField : Type where
  | prim : Prim → NodeField
  | obj : Node → NodeField
  | arr : NodeList → NodeField

/-- An array-valued field's elements in order. -/
inductive NodeList : Type where
  | nil : NodeList
  | ncons : Node → NodeList → NodeList

end

/-- `node.type`. -/
def Node.ty : Node → String
  | .mk t _ => t

/-- The fields of a node (everything the `for (const key in node)` loop sees
besides the primitive `type` / location fields, which are skipped anyway). -/
def Node.fields : Node → NodeFields
  | .mk _ fs => fs

/-- JavaScript property lookup on an object literal (keys are unique, so
first match suffices). -/
def NodeFields.find : NodeFields → String → Option NodeField
  | .nil, _ => none
  | .fcons k v rest, key => if k = key then some v else rest.find key

/-- `node.k` when that field holds a single child object. -/
def Node.objField (n : Node) (k : String) : Option Node :=
  match n.fields.find k with
  | some (.obj m) => some m
  | _ => none

/-- `node.k` when that field holds a string primitive. -/
def Node.strField (n : Node) (k : String) : Option String :=
  match n.fields.find k with
  | some (.prim (.str s)) => some s
  | _ => none

/-- `node.k` as an array; anything else behaves as an empty array (in the
source, a non-array here would make `node.arguments.length > 0` false). -/
def Node.arrField (n : Node) (k : String) : NodeList :=
  match n.fields.find k with
  | some (.arr ns) => ns
  | _ => .nil

def NodeList.length : NodeList → Nat
  | .nil => 0
  | .ncons _ rest => rest.length + 1

/-- `node.source.value` as read by the `ImportDeclaration` branch (line 82).
Acorn guarantees `source` is a `Literal` node with a string `value`; the
embedding returns `none` on trees the parser never produces. -/
def Node.sourceValue (n : Node) : Option String :=
  match n.objField "source" with
  | some src => src.strField "value"
  | none => none

/-- `node.callee.name` (line 90); `none` when `callee` is absent or carries
no string `name`, in which case the strict-equality test with the string
literal is false in the source. -/
def Node.calleeName (n : Node) : Option String :=
  match n.objField "callee" with
  | some c => c.strField "name"
  | none => none

/-- `node.callee.type` (line 106). -/
def Node.calleeType (n : Node) : Option String :=
  match n.objField "callee" with
  | some c => some c.ty
  | none => none

/-- `node.arguments` (lines 90 and 106). -/
def Node.argumentsList (n : Node) : NodeList :=
  n.arrField "arguments"

/-- `node.arguments.length`. -/
def Node.argumentsLength (n : Node) : Nat :=
  n.argumentsList.length

/-- `node.arguments[0].value` guarded by
`arg.type === 'Literal' && typeof arg.value === 'string'` (lines 91-93,
107-109). -/
def Node.firstArgStringLiteral (n : Node) : Option String :=
  match n.argumentsList with
  | .nil => none
  | .ncons a _ => if a.ty = "Literal" then a.strField "value" else none

/-- JavaScript `String.prototype.startsWith`, i.e. character-level prefix. -/
def jsStartsWith (s pre : String) : Bool :=
  pre.data.isPrefixOf s.data

/-- The built-in heavy-dependency list (lines 17-38). -/
def HEAVY_DEPENDENCIES : List String :=
  ["webpack", "rollup", "vite", "esbuild", "parcel",
   "jest", "mocha", "jasmine", "cypress", "playwright",
   "babel", "@babel/core", "typescript", "ts-node",
   "eslint", "prettier", "jshint",
   "lodash", "moment", "axios", "request",
   "react", "vue", "angular", "express",
   "nodemon", "pm2", "forever"]

/-- `isHeavyDependency` (lines 162-174), generalized over the dependency
list it closes over (the source fixes it to `HEAVY_DEPENDENCIES`; the spec's
configuration appends user entries to that list). -/
def isHeavyDependencyWith (heavy : List String) (moduleName : String) : Bool :=
  heavy.contains moduleName ||
  heavy.any (fun dep =>
    jsStartsWith moduleName (dep ++ "/") ||
    jsStartsWith moduleName ("@" ++ dep ++ "/") ||
    (jsStartsWith dep "@" && jsStartsWith moduleName (dep ++ "/")))

/-- `isHeavyDependency` exactly as in the source, over the built-in list. -/
def isHeavyDependency (moduleName : String) : Bool :=
  isHeavyDependencyWith HEAVY_DEPENDENCIES moduleName

/-- The walker's mutable context inside `checkLazyImportHeavyDeps`:
`currentDepth` plus the two insertion-ordered, duplicate-free accumulator
sets (`topLevelImports`, `lazyImports`).  JavaScript `Set` iteration order is
insertion order, so the sets are lists with guarded append. -/
structure WalkState where
  depth : Int
  topLevelImports : List String
  lazyImports : List String
deriving DecidableEq

/-- `Set.prototype.add`: append unless already present. -/
def addToSet (xs : List String) (s : String) : List String :=
  if xs.contains s then xs else xs ++ [s]

/-- The per-node classification step of `walkNode` (lines 81-115): the
`ImportDeclaration` branch, then, for `CallExpression` nodes, the `require`
branch followed by the dynamic-import branch. -/
def classifyNode (heavy : List String) (n : Node) (st : WalkState) : WalkState :=
  let st1 :=
    if n.ty = "ImportDeclaration" ∧ st.depth = 0 then
      match n.sourceValue with
      | some source =>
        if isHeavyDependencyWith heavy source then
          { st with topLevelImports := addToSet st.topLevelImports source }
        else st
      | none => st
    else st
  if n.ty = "CallExpression" then
    let st2 :=
      if n.calleeName = some "require" ∧ 0 < n.argumentsLength then
        match n.firstArgStringLiteral with
        | some moduleName =>
          if isHeavyDependencyWith heavy moduleName then
            if st1.depth = 0 then
              { st1 with topLevelImports := addToSet st1.topLevelImports moduleName }
            else
              { st1 with lazyImports := addToSet st1.lazyImports moduleName }
          else st1
        | none => st1
      else st1
    if n.calleeType = some "Import" ∧ 0 < n.argumentsLength then
      match n.firstArgStringLiteral with
      | some moduleName =>
        if isHeavyDependencyWith heavy moduleName then
          { st2 with lazyImports := addToSet st2.lazyImports moduleName }
        else st2
      | none => st2
    else st2
  else st1

/-- Lines 118-120: the node kinds that open a new function scope. -/
def isFunctionNode (n : Node) : Bool :=
  n.ty = "FunctionDeclaration" ||
  n.ty = "FunctionExpression" ||
  n.ty = "ArrowFunctionExpression"

mutual

/-- `walkNode` (lines 77-145): classify the node, bump the depth for
function nodes, recurse into every field in order, restore the depth. -/
def walkNode (heavy : List String) : Node → WalkState → WalkState
  | n@(.mk _ fs), st =>
    let st1 := classifyNode heavy n st
    let fn := isFunctionNode n
    let st2 := if fn then { st1 with depth := st1.depth + 1 } else st1
    let st3 := walkNodeFields heavy fs st2
    if fn then { st3 with depth := st3.depth - 1 } else st3

/-- The `for (const key in node)` loop (lines 127-140), one field at a time. -/
def walkNodeFields (heavy : List String) : NodeFields → WalkState → WalkState
  | .nil, st => st
  | .fcons _ f rest, st => walkNodeFields heavy rest (walkNodeField heavy f st)

/-- One field: primitives are skipped, single objects are walked when their
`type` is truthy, arrays are walked element-wise. -/
def walkNodeField (heavy : List String) : NodeField → WalkState → WalkState
  | .prim _, st => st
  | .obj c, st => if c.ty ≠ "" then walkNode heavy c st else st
  | .arr ns, st => walkNodeArray heavy ns st

/-- The `child.forEach` loop (lines 131-135). -/
def walkNodeArray (heavy : List String) : NodeList → WalkState → WalkState
  | .nil, st => st
  | .ncons c rest, st =>
    walkNodeArray heavy rest (if c.ty ≠ "" then walkNode heavy c st else st)

end

/-- The state `checkLazyImportHeavyDeps` starts its walk with (lines 71-74). -/
def initialWalkState : WalkState :=
  { depth := 0, topLevelImports := [], lazyImports := [] }

/-- One reported finding (lines 151-156). -/
structure Diagnostic where
  file : String
  rule : String
  message : String
  severity : String
deriving DecidableEq

/-- The message template of line 154. -/
def diagnosticMessage (moduleName : String) : String :=
  "Heavy dependency \x27" ++ moduleName ++
    "\x27 should be lazily loaded to improve startup performance. Consider using dynamic import() or require() inside functions."

/-- The diagnostic record pushed for one top-level heavy import
(lines 150-157). -/
def mkDiagnostic (filePath moduleName : String) : Diagnostic :=
  { file := filePath,
    rule := "lazy-import-heavy-js-deps",
    message := diagnosticMessage moduleName,
    severity := "warning" }

/-- The diagnostics one file's tree contributes: one per entry of the final
`topLevelImports` set, in set (= insertion) order. -/
def fileDiagnostics (heavy : List String) (ast : Node) (filePath : String) : List Diagnostic :=
  (walkNode heavy ast initialWalkState).topLevelImports.map (mkDiagnostic filePath)

/-- `checkLazyImportHeavyDeps` (lines 70-158): walk the tree from depth 0
with empty sets, then push one diagnostic per top-level heavy import onto
the linter's error list. -/
def checkLazyImportHeavyDeps (heavy : List String) (ast : Node) (filePath : String)
    (errors : List Diagnostic) : List Diagnostic :=
  errors ++ fileDiagnostics heavy ast filePath

/-- The acorn options objects built at lines 47-52 and 58-62 (fields beyond
`ecmaVersion` that decide acceptance; `allowImportExportEverywhere` defaults
to false when omitted). -/
structure ParseOptions where
  sourceType : String
  allowImportExportEverywhere : Bool
  allowReturnOutsideFunction : Bool
deriving DecidableEq

/-- The first parse attempt's options (lines 47-52). -/
def moduleParseOptions : ParseOptions :=
  { sourceType := "module",
    allowImportExportEverywhere := true,
    allowReturnOutsideFunction := true }

/-- The fallback parse attempt's options (lines 58-62). -/
def scriptParseOptions : ParseOptions :=
  { sourceType := "script",
    allowImportExportEverywhere := false,
    allowReturnOutsideFunction := true }

/-- Modelled from the spec: the external acorn parser, which the repository
uses as a black box that turns source text into a tree or fails with a
syntax error (the parser itself is not part of this repository).  A source
text is abstracted by the features deciding acceptance under the option sets
the linter passes: whether it uses `return` outside any function (rejected
exactly when `allowReturnOutsideFunction` is unset, under either
`sourceType`), whether it uses a module-only construct such as `import`
declarations outside module mode (rejected under `sourceType: 'script'`
without `allowImportExportEverywhere`), and whether it is malformed under
both grammars; plus the tree and error message a parse produces. -/
structure SourceText where
  topLevelReturn : Bool
  moduleOnlyConstruct : Bool
  fatalSyntaxError : Bool
  tree : Node
  parseErrorMsg : String

/-- Modelled from the spec: one acorn parse attempt over the abstraction
above; `none` is a thrown `SyntaxError`. -/
def acornParse (opts : ParseOptions) (src : SourceText) : Option Node :=
  if src.fatalSyntaxError then none
  else if src.topLevelReturn && !opts.allowReturnOutsideFunction then none
  else if src.moduleOnlyConstruct && !(opts.sourceType = "module" || opts.allowImportExportEverywhere) then none
  else some src.tree

/-- `lint` (lines 45-68): try the module grammar, fall back to the script
grammar, and on double failure leave the error list untouched and emit the
`console.warn` line (returned here as the second component). -/
def lint (heavy : List String) (filePath : String) (content : SourceText)
    (errors : List Diagnostic) : List Diagnostic × List String :=
  match acornParse moduleParseOptions content with
  | some ast => (checkLazyImportHeavyDeps heavy ast filePath errors, [])
  | none =>
    match acornParse scriptParseOptions content with
    | some ast => (checkLazyImportHeavyDeps heavy ast filePath errors, [])
    | none => (errors, ["Unable to parse " ++ filePath ++ ": " ++ content.parseErrorMsg])

/-- `lintFiles` (lines 185-221) restricted to its analysis core: fold
`linter.lint` over the batch, accumulating the shared error list and the
warnings printed along the way (file discovery and report formatting are
outside the verified core). -/
def lintFiles (heavy : List String) (files : List (String × SourceText)) :
    List Diagnostic × List String :=
  files.foldl
    (fun acc f =>
      let r := lint heavy f.1 f.2 acc.1
      (r.1, acc.2 ++ r.2))
    ([], [])

/-- The syntactic form of a recognized import site, mirroring the three
classifier branches. -/
inductive SiteForm where
  | staticImport : SiteForm
  | requireCall : SiteForm
  | dynamicImport : SiteForm
deriving DecidableEq

/-- One import site the classifier recognizes during the walk: its branch,
the extracted specifier, and the value of `currentDepth` when the node is
classified. -/
structure Site where
  form : SiteForm
  spec : String
  depth : Int
deriving DecidableEq

/-- The sites a single node contributes, in classification order.  Each
condition is the source branch guard verbatim; heaviness is not part of the
guard (`isHeavyDependency` is consulted afterwards). -/
def nodeOwnSites (n : Node) (d : Int) : List Site :=
  (if n.ty = "ImportDeclaration" ∧ d = 0 then
    match n.sourceValue with
    | some source => [{ form := .staticImport, spec := source, depth := d }]
    | none => []
  else []) ++
  (if n.ty = "CallExpression" then
    (if n.calleeName = some "require" ∧ 0 < n.argumentsLength then
      match n.firstArgStringLiteral with
      | some moduleName => [{ form := .requireCall, spec := moduleName, depth := d }]
      | none => []
    else []) ++
    (if n.calleeType = some "Import" ∧ 0 < n.argumentsLength then
      match n.firstArgStringLiteral with
      | some moduleName => [{ form := .dynamicImport, spec := moduleName, depth := d }]
      | none => []
    else [])
  else [])

mutual

/-- All sites of a subtree rooted at a node entered at depth `d`, in the
order the walk classifies them. -/
def nodeSites : Node → Int → List Site
  | n@(.mk _ fs), d =>
    nodeOwnSites n d ++ nodeFieldsSites fs (if isFunctionNode n then d + 1 else d)

/-- Sites contributed by a field list. -/
def nodeFieldsSites : NodeFields → Int → List Site
  | .nil, _ => []
  | .fcons _ f rest, d => nodeFieldSites f d ++ nodeFieldsSites rest d

/-- Sites contributed by one field. -/
def nodeFieldSites : NodeField → Int → List Site
  | .prim _, _ => []
  | .obj c, d => if c.ty ≠ "" then nodeSites c d else []
  | .arr ns, d => nodeArraySites ns d

/-- Sites contributed by an array field. -/
def nodeArraySites : NodeList → Int → List Site
  | .nil, _ => []
  | .ncons c rest, d =>
    (if c.ty ≠ "" then nodeSites c d else []) ++ nodeArraySites rest d

end

/-- The specifier a site sends to `topLevelImports`, if any: heavy
static imports (only collected at depth 0) and heavy `require` calls at
depth 0. -/
def siteTopTarget (heavy : List String) (x : Site) : Option String :=
  match x.form with
  | .staticImport => if isHeavyDependencyWith heavy x.spec then some x.spec else none
  | .requireCall =>
    if x.depth = 0 ∧ isHeavyDependencyWith heavy x.spec then some x.spec else none
  | .dynamicImport => none

/-- The specifier a site sends to `lazyImports`, if any: heavy `require`
calls at nonzero depth and heavy dynamic imports at any depth. -/
def siteLazyTarget (heavy : List String) (x : Site) : Option String :=
  match x.form with
  | .staticImport => none
  | .requireCall =>
    if x.depth ≠ 0 ∧ isHeavyDependencyWith heavy x.spec then some x.spec else none
  | .dynamicImport => if isHeavyDependencyWith heavy x.spec then some x.spec else none

mutual

/-- The value of `currentDepth` at the entry of each recursive `walkNode`
call, in call order: the depth at which each visited node is classified. -/
def nodeEntryDepths : Node → Int → List Int
  | n@(.mk _ fs), d =>
    d :: nodeFieldsEntryDepths fs (if isFunctionNode n then d + 1 else d)

/-- Entry depths charged to a field list. -/
def nodeFieldsEntryDepths : NodeFields → Int → List Int
  | .nil, _ => []
  | .fcons _ f rest, d => nodeFieldEntryDepths f d ++ nodeFieldsEntryDepths rest d

/-- Entry depths charged to one field. -/
def nodeFieldEntryDepths : NodeField → Int → List Int
  | .prim _, _ => []
  | .obj c, d => if c.ty ≠ "" then nodeEntryDepths c d else []
  | .arr ns, d => nodeArrayEntryDepths ns d

/-- Entry depths charged to an array field. -/
def nodeArrayEntryDepths : NodeList → Int → List Int
  | .nil, _ => []
  | .ncons c rest, d =>
    (if c.ty ≠ "" then nodeEntryDepths c d else []) ++ nodeArrayEntryDepths rest d

end

mutual

/-- Structural size of a node (number of constructors), the measure bounding
the walk's recursion. -/
def Node.sizeN : Node → Nat
  | .mk _ fs => fs.sizeFs + 1

/-- Structural size of a field list. -/
def NodeFields.sizeFs : NodeFields → Nat
  | .nil => 1
  | .fcons _ f rest => f.sizeFd + rest.sizeFs + 1

/-- Structural size of one field. -/
def NodeField.sizeFd : NodeField → Nat
  | .prim _ => 1
  | .obj c => c.sizeN + 1
  | .arr ns => ns.sizeNs + 1

/-- Structural size of an array field. -/
def NodeList.sizeNs : NodeList → Nat
  | .nil => 1
  | .ncons c rest => c.sizeN + rest.sizeNs + 1

end

mutual

/-- `walkNode` under a step-counting semantics that makes no termination
assumption: every recursive step consumes one unit of fuel and exhausted
fuel answers `none`.  This is the reference semantics against which the
total `walkNode` is proved to terminate on every finite tree. -/
def walkNodeFuel (heavy : List String) : Nat → Node → WalkState → Option WalkState
  | 0, _, _ => none
  | fuel + 1, n@(.mk _ fs), st =>
    let st1 := classifyNode heavy n st
    let fn := isFunctionNode n
    let st2 := if fn then { st1 with depth := st1.depth + 1 } else st1
    match walkNodeFieldsFuel heavy fuel fs st2 with
    | some st3 => some (if fn then { st3 with depth := st3.depth - 1 } else st3)
    | none => none

/-- Fueled field-list walk. -/
def walkNodeFieldsFuel (heavy : List String) : Nat → NodeFields → WalkState → Option WalkState
  | 0, _, _ => none
  | _ + 1, .nil, st => some st
  | fuel + 1, .fcons _ f rest, st =>
    match walkNodeFieldFuel heavy fuel f st with
    | some st1 => walkNodeFieldsFuel heavy fuel rest st1
    | none => none

/-- Fueled single-field walk. -/
def walkNodeFieldFuel (heavy : List String) : Nat → NodeField → WalkState → Option WalkState
  | 0, _, _ => none
  | _ + 1, .prim _, st => some st
  | fuel + 1, .obj c, st => if c.ty ≠ "" then walkNodeFuel heavy fuel c st else some st
  | fuel + 1, .arr ns, st => walkNodeArrayFuel heavy fuel ns st

/-- Fueled array walk. -/
def walkNodeArrayFuel (heavy : List String) : Nat → NodeList → WalkState → Option WalkState
  | 0, _, _ => none
  | _ + 1, .nil, st => some st
  | fuel + 1, .ncons c rest, st =>
    match (if c.ty ≠ "" then walkNodeFuel heavy fuel c st else some st) with
    | some st1 => walkNodeArrayFuel heavy fuel rest st1
    | none => none

end

/-- `checkLazyImportHeavyDeps` over the fueled walker: `none` would mean the
walk failed to finish within the given number of recursive steps. -/
def checkLazyImportHeavyDepsFuel (fuel : Nat) (heavy : List String) (ast : Node)
    (filePath : String) (errors : List Diagnostic) : Option (List Diagnostic) :=
  match walkNodeFuel heavy fuel ast initialWalkState with
  | some st => some (errors ++ st.topLevelImports.map (mkDiagnostic filePath))
  | none => none

/-- The Dependency Matcher contract exactly as the claim states it: exact
membership, a `d + "/"` sub-path for `d` in the set, or an
`"@" + d + "/"` sub-path restricted to `d` without a leading `@`. -/
def isHeavySpecClaim (heavy : List String) (moduleName : String) : Bool :=
  heavy.contains moduleName ||
  heavy.any (fun dep =>
    jsStartsWith moduleName (dep ++ "/") ||
    (!jsStartsWith dep "@" && jsStartsWith moduleName ("@" ++ dep ++ "/")))

/-- The amended Dependency Matcher contract: as above but with the
`"@" + d + "/"` sub-path clause applying to every `d` in the set,
including those already starting with `@`. -/
def isHeavyAmendedSpec (heavy : List String) (moduleName : String) : Bool :=
  heavy.contains moduleName ||
  heavy.any (fun dep =>
    jsStartsWith moduleName (dep ++ "/") ||
    jsStartsWith moduleName ("@" ++ dep ++ "/"))

/-! ### Concrete sample trees (shaped like acorn output) -/

/-- An `Identifier` node named `require`. -/
def identifierRequire : Node :=
  .mk "Identifier" (.fcons "name" (.prim (.str "require")) .nil)

/-- A string `Literal` node. -/
def literalNode (s : String) : Node :=
  .mk "Literal" (.fcons "value" (.prim (.str s)) .nil)

/-- `require("m")`. -/
def requireCallNode (m : String) : Node :=
  .mk "CallExpression"
    (.fcons "callee" (.obj identifierRequire)
      (.fcons "arguments" (.arr (.ncons (literalNode m) .nil)) .nil))

/-- Dynamic `import("m")` in the shape the classifier's dynamic branch
recognizes: a `CallExpression` whose callee node has type `Import`. -/
def dynamicImportCallNode (m : String) : Node :=
  .mk "CallExpression"
    (.fcons "callee" (.obj (.mk "Import" .nil))
      (.fcons "arguments" (.arr (.ncons (literalNode m) .nil)) .nil))

/-- `import x from "m"`. -/
def importDeclarationNode (m : String) : Node :=
  .mk "ImportDeclaration" (.fcons "source" (.obj (literalNode m)) .nil)

/-- A function declaration whose block body holds one statement. -/
def functionWrapNode (inner : Node) : Node :=
  .mk "FunctionDeclaration"
    (.fcons "body"
      (.obj (.mk "BlockStatement" (.fcons "body" (.arr (.ncons inner .nil)) .nil)))
      .nil)

/-- A `Program` root with the given statement list. -/
def programNode (stmts : NodeList) : Node :=
  .mk "Program" (.fcons "body" (.arr stmts) .nil)

/-- An `ImportExpression` node — the kind acorn itself emits for a
dynamic-import expression — carrying its operand as a `source` field. -/
def importExpressionSample : Node :=
  .mk "ImportExpression" (.fcons "source" (.obj (literalNode "lodash")) .nil)

/-- A source text whose only script-level peculiarity is a top-level
`return`. -/
def topLevelReturnSample : SourceText :=
  { topLevelReturn := true,
    moduleOnlyConstruct := false,
    fatalSyntaxError := false,
    tree := programNode (.ncons (requireCallNode "webpack") .nil),
    parseErrorMsg := "" }

/-- A source text that fails under both grammars. -/
def garbageSample : SourceText :=
  { topLevelReturn := false,
    moduleOnlyConstruct := false,
    fatalSyntaxError := true,
    tree := programNode .nil,
    parseErrorMsg := "Unexpected token (1:0)" }

/-- A plain, parseable source text with the given tree. -/
def plainSource (t : Node) : SourceText :=
  { topLevelReturn := false,
    moduleOnlyConstruct := false,
    fatalSyntaxError := false,
    tree := t,
    parseErrorMsg := "" }

/-! ### Helper lemmas about the accumulator sets -/

theorem mem_addToSet {xs : List String} {a s : String} :
    s ∈ addToSet xs a ↔ s ∈ xs ∨ s = a := by
  by_cases ha : a ∈ xs
  · have hx : addToSet xs a = xs := by simp [addToSet, ha]
    rw [hx]
    constructor
    · exact fun hs => Or.inl hs
    · rintro (hs | rfl)
      · exact hs
      · exact ha
  · simp [addToSet, ha]

theorem nodup_addToSet {xs : List String} (a : String) (h : xs.Nodup) :
    (addToSet xs a).Nodup := by
  by_cases ha : a ∈ xs
  · simpa [addToSet, ha] using h
  · simp [addToSet, ha, List.nodup_append, h]

theorem mem_foldl_addToSet {l : List String} {xs : List String} {s : String} :
    s ∈ List.foldl addToSet xs l ↔ s ∈ xs ∨ s ∈ l := by
  induction l generalizing xs with
  | nil => simp
  | cons a rest ih =>
    simp only [List.foldl_cons, ih, mem_addToSet, List.mem_cons]
    tauto

theorem nodup_foldl_addToSet {l : List String} {xs : List String} (h : xs.Nodup) :
    (List.foldl addToSet xs l).Nodup := by
  induction l generalizing xs with
  | nil => simpa
  | cons a rest ih => exact ih (nodup_addToSet a h)

/-! ### The walker computes exactly the routed site lists -/

theorem classifyNode_eq (heavy : List String) (n : Node) (st : WalkState) :
    classifyNode heavy n st =
      { depth := st.depth,
        topLevelImports := List.foldl addToSet st.topLevelImports
          ((nodeOwnSites n st.depth).filterMap (siteTopTarget heavy)),
        lazyImports := List.foldl addToSet st.lazyImports
          ((nodeOwnSites n st.depth).filterMap (siteLazyTarget heavy)) } := by
  rcases st with ⟨d, top, lz⟩
  rcases hsv : n.sourceValue with _ | source <;>
    rcases hfa : n.firstArgStringLiteral with _ | m <;>
      simp only [classifyNode, nodeOwnSites, hsv, hfa] <;>
        split_ifs <;>
          simp_all [siteTopTarget, siteLazyTarget]

mutual

theorem walkNode_eq (heavy : List String) (n : Node) (st : WalkState) :
    walkNode heavy n st =
      { depth := st.depth,
        topLevelImports := List.foldl addToSet st.topLevelImports
          ((nodeSites n st.depth).filterMap (siteTopTarget heavy)),
        lazyImports := List.foldl addToSet st.lazyImports
          ((nodeSites n st.depth).filterMap (siteLazyTarget heavy)) } := by
  cases n with
  | mk t fs =>
    rcases st with ⟨d, top, lz⟩
    by_cases hfn : isFunctionNode (.mk t fs) <;>
      simp only [walkNode, classifyNode_eq, hfn, if_true, if_false, nodeSites,
        walkNodeFields_eq heavy fs, List.filterMap_append, List.foldl_append] <;>
      simp [hfn]

theorem walkNodeFields_eq (heavy : List String) (fs : NodeFields) (st : WalkState) :
    walkNodeFields heavy fs st =
      { depth := st.depth,
        topLevelImports := List.foldl addToSet st.topLevelImports
          ((nodeFieldsSites fs st.depth).filterMap (siteTopTarget heavy)),
        lazyImports := List.foldl addToSet st.lazyImports
          ((nodeFieldsSites fs st.depth).filterMap (siteLazyTarget heavy)) } := by
  cases fs with
  | nil => simp [walkNodeFields, nodeFieldsSites]
  | fcons k f rest =>
    rcases st with ⟨d, top, lz⟩
    simp only [walkNodeFields, nodeFieldsSites, walkNodeField_eq heavy f,
      List.filterMap_append, List.foldl_append]
    simp [walkNodeFields_eq heavy rest]

theorem walkNodeField_eq (heavy : List String) (f : NodeField) (st : WalkState) :
    walkNodeField heavy f st =
      { depth := st.depth,
        topLevelImports := List.foldl addToSet st.topLevelImports
          ((nodeFieldSites f st.depth).filterMap (siteTopTarget heavy)),
        lazyImports := List.foldl addToSet st.lazyImports
          ((nodeFieldSites f st.depth).filterMap (siteLazyTarget heavy)) } := by
  cases f with
  | prim p => simp [walkNodeField, nodeFieldSites]
  | obj c =>
    by_cases hty : c.ty ≠ "" <;>
      simp [walkNodeField, nodeFieldSites, hty, walkNode_eq heavy c]
  | arr ns => simp [walkNodeField, nodeFieldSites, walkNodeArray_eq heavy ns]

theorem walkNodeArray_eq (heavy : List String) (ns : NodeList) (st : WalkState) :
    walkNodeArray heavy ns st =
      { depth := st.depth,
        topLevelImports := List.foldl addToSet st.topLevelImports
          ((nodeArraySites ns st.depth).filterMap (siteTopTarget heavy)),
        lazyImports := List.foldl addToSet st.lazyImports
          ((nodeArraySites ns st.depth).filterMap (siteLazyTarget heavy)) } := by
  cases ns with
  | nil => simp [walkNodeArray, nodeArraySites]
  | ncons c rest =>
    rcases st with ⟨d, top, lz⟩
    by_cases hty : c.ty ≠ "" <;>
      simp only [walkNodeArray, nodeArraySites, hty, if_true, if_false,
        List.filterMap_append, List.foldl_append, walkNode_eq heavy c] <;>
      simp [walkNodeArray_eq heavy rest, hty]

end

/-- The outcome of a file's walk, in terms of its routed site lists. -/
theorem walkNode_initial (heavy : List String) (t : Node) :
    walkNode heavy t initialWalkState =
      { depth := 0,
        topLevelImports := List.foldl addToSet []
          ((nodeSites t 0).filterMap (siteTopTarget heavy)),
        lazyImports := List.foldl addToSet []
          ((nodeSites t 0).filterMap (siteLazyTarget heavy)) } := by
  simpa [initialWalkState] using walkNode_eq heavy t initialWalkState

theorem mem_topLevelImports (heavy : List String) (t : Node) (s : String) :
    s ∈ (walkNode heavy t initialWalkState).topLevelImports ↔
      ∃ x ∈ nodeSites t 0, siteTopTarget heavy x = some s := by
  rw [walkNode_initial]
  simp [mem_foldl_addToSet, List.mem_filterMap]

theorem mem_lazyImports (heavy : List String) (t : Node) (s : String) :
    s ∈ (walkNode heavy t initialWalkState).lazyImports ↔
      ∃ x ∈ nodeSites t 0, siteLazyTarget heavy x = some s := by
  rw [walkNode_initial]
  simp [mem_foldl_addToSet, List.mem_filterMap]

theorem nodup_topLevelImports (heavy : List String) (t : Node) :
    (walkNode heavy t initialWalkState).topLevelImports.Nodup := by
  rw [walkNode_initial]
  exact nodup_foldl_addToSet List.nodup_nil

/-- A site only ever routes its own specifier. -/
theorem siteTopTarget_spec {heavy : List String} {x : Site} {s : String}
    (h : siteTopTarget heavy x = some s) : x.spec = s := by
  unfold siteTopTarget at h
  rcases x with ⟨form, spec, depth⟩
  cases form <;> simp_all

/-! ### Depth discipline -/

mutual

/-- Every recursive call below a node entered at depth `d` is entered at
depth at least `d`. -/
theorem nodeEntryDepths_lower (n : Node) (d : Int) :
    ∀ x ∈ nodeEntryDepths n d, d ≤ x := by
  cases n with
  | mk t fs =>
    intro x hx
    simp only [nodeEntryDepths, List.mem_cons] at hx
    rcases hx with rfl | hx
    · exact le_refl x
    · have hstep := nodeFieldsEntryDepths_lower fs
        (if isFunctionNode (.mk t fs) then d + 1 else d) x hx
      by_cases hfn : isFunctionNode (.mk t fs)
      · simp only [hfn, if_true] at hstep
        omega
      · simpa [hfn] using hstep

theorem nodeFieldsEntryDepths_lower (fs : NodeFields) (d : Int) :
    ∀ x ∈ nodeFieldsEntryDepths fs d, d ≤ x := by
  cases fs with
  | nil => intro x hx; simp [nodeFieldsEntryDepths] at hx
  | fcons k f rest =>
    intro x hx
    simp only [nodeFieldsEntryDepths, List.mem_append] at hx
    rcases hx with hx | hx
    · exact nodeFieldEntryDepths_lower f d x hx
    · exact nodeFieldsEntryDepths_lower rest d x hx

theorem nodeFieldEntryDepths_lower (f : NodeField) (d : Int) :
    ∀ x ∈ nodeFieldEntryDepths f d, d ≤ x := by
  cases f with
  | prim p => intro x hx; simp [nodeFieldEntryDepths] at hx
  | obj c =>
    intro x hx
    by_cases hty : c.ty ≠ ""
    · exact nodeEntryDepths_lower c d x (by simpa [nodeFieldEntryDepths, hty] using hx)
    · simp [nodeFieldEntryDepths, hty] at hx
  | arr ns => exact nodeArrayEntryDepths_lower ns d

theorem nodeArrayEntryDepths_lower (ns : NodeList) (d : Int) :
    ∀ x ∈ nodeArrayEntryDepths ns d, d ≤ x := by
  cases ns with
  | nil => intro x hx; simp [nodeArrayEntryDepths] at hx
  | ncons c rest =>
    intro x hx
    simp only [nodeArrayEntryDepths, List.mem_append] at hx
    rcases hx with hx | hx
    · by_cases hty : c.ty ≠ ""
      · exact nodeEntryDepths_lower c d x (by simpa [hty] using hx)
      · simp [hty] at hx
    · exact nodeArrayEntryDepths_lower rest d x hx

end

/-! ### The fueled walker agrees with the total walker -/

mutual

theorem walkNodeFuel_adequate (heavy : List String) (n : Node) (st : WalkState)
    (fuel : Nat) (h : n.sizeN ≤ fuel) :
    walkNodeFuel heavy fuel n st = some (walkNode heavy n st) := by
  cases n with
  | mk t fs =>
    cases fuel with
    | zero => simp [Node.sizeN] at h
    | succ f =>
      have hfs : fs.sizeFs ≤ f := by
        simp only [Node.sizeN] at h
        omega
      simp only [walkNodeFuel, walkNode,
        walkNodeFieldsFuel_adequate heavy fs _ f hfs]

theorem walkNodeFieldsFuel_adequate (heavy : List String) (fs : NodeFields)
    (st : WalkState) (fuel : Nat) (h : fs.sizeFs ≤ fuel) :
    walkNodeFieldsFuel heavy fuel fs st = some (walkNodeFields heavy fs st) := by
  cases fs with
  | nil =>
    cases fuel with
    | zero => simp [NodeFields.sizeFs] at h
    | succ f => simp [walkNodeFieldsFuel, walkNodeFields]
  | fcons k fd rest =>
    cases fuel with
    | zero => simp [NodeFields.sizeFs] at h
    | succ f =>
      have hfd : fd.sizeFd ≤ f := by
        simp only [NodeFields.sizeFs] at h
        omega
      have hrest : rest.sizeFs ≤ f := by
        simp only [NodeFields.sizeFs] at h
        omega
      simp only [walkNodeFieldsFuel, walkNodeFields,
        walkNodeFieldFuel_adequate heavy fd st f hfd,
        walkNodeFieldsFuel_adequate heavy rest _ f hrest]

theorem walkNodeFieldFuel_adequate (heavy : List String) (fd : NodeField)
    (st : WalkState) (fuel : Nat) (h : fd.sizeFd ≤ fuel) :
    walkNodeFieldFuel heavy fuel fd st = some (walkNodeField heavy fd st) := by
  cases fd with
  | prim p =>
    cases fuel with
    | zero => simp [NodeField.sizeFd] at h
    | succ f => simp [walkNodeFieldFuel, walkNodeField]
  | obj c =>
    cases fuel with
    | zero => simp [NodeField.sizeFd] at h
    | succ f =>
      have hc : c.sizeN ≤ f := by
        simp only [NodeField.sizeFd] at h
        omega
      by_cases hty : c.ty ≠ "" <;>
        simp [walkNodeFieldFuel, walkNodeField, hty,
          walkNodeFuel_adequate heavy c st f hc]
  | arr ns =>
    cases fuel with
    | zero => simp [NodeField.sizeFd] at h
    | succ f =>
      have hns : ns.sizeNs ≤ f := by
        simp only [NodeField.sizeFd] at h
        omega
      simp [walkNodeFieldFuel, walkNodeField,
        walkNodeArrayFuel_adequate heavy ns st f hns]

theorem walkNodeArrayFuel_adequate (heavy : List String) (ns : NodeList)
    (st : WalkState) (fuel : Nat) (h : ns.sizeNs ≤ fuel) :
    walkNodeArrayFuel heavy fuel ns st = some (walkNodeArray heavy ns st) := by
  cases ns with
  | nil =>
    cases fuel with
    | zero => simp [NodeList.sizeNs] at h
    | succ f => simp [walkNodeArrayFuel, walkNodeArray]
  | ncons c rest =>
    cases fuel with
    | zero => simp [NodeList.sizeNs] at h
    | succ f =>
      have hc : c.sizeN ≤ f := by
        simp only [NodeList.sizeNs] at h
        omega
      have hrest : rest.sizeNs ≤ f := by
        simp only [NodeList.sizeNs] at h
        omega
      by_cases hty : c.ty ≠ "" <;>
        simp [walkNodeArrayFuel, walkNodeArray, hty,
          walkNodeFuel_adequate heavy c st f hc,
          walkNodeArrayFuel_adequate heavy rest _ f hrest]

end

/-! ### Diagnostics are injective in the specifier -/

theorem diagnosticMessage_injective {a b : String}
    (h : diagnosticMessage a = diagnosticMessage b) : a = b := by
  unfold diagnosticMessage at h
  have hdata : ("Heavy dependency \x27".data ++ a.data) ++
      "\x27 should be lazily loaded to improve startup performance. Consider using dynamic import() or require() inside functions.".data =
      ("Heavy dependency \x27".data ++ b.data) ++
      "\x27 should be lazily loaded to improve startup performance. Consider using dynamic import() or require() inside functions.".data := by
    have := congrArg String.data h
    simpa [String.data_append] using this
  have h2 := List.append_cancel_right hdata
  have h3 := List.append_cancel_left h2
  exact String.ext h3

theorem mkDiagnostic_injective (filePath : String) {a b : String}
    (h : mkDiagnostic filePath a = mkDiagnostic filePath b) : a = b := by
  apply diagnosticMessage_injective
  simpa [mkDiagnostic] using congrArg Diagnostic.message h

/-! ### Facade decomposition -/

theorem lint_decomp (heavy : List String) (filePath : String) (content : SourceText)
    (errors : List Diagnostic) :
    lint heavy filePath content errors
      = (errors ++ (lint heavy filePath content []).1,
         (lint heavy filePath content []).2) := by
  unfold lint checkLazyImportHeavyDeps
  cases acornParse moduleParseOptions content <;>
    cases acornParse scriptParseOptions content <;> simp

theorem lint_bothFail (heavy : List String) (filePath : String) (content : SourceText)
    (errors : List Diagnostic)
    (h1 : acornParse moduleParseOptions content = none)
    (h2 : acornParse scriptParseOptions content = none) :
    lint heavy filePath content errors
      = (errors, ["Unable to parse " ++ filePath ++ ": " ++ content.parseErrorMsg]) := by
  unfold lint
  rw [h1, h2]

theorem lintFiles_foldl (heavy : List String) (files : List (String × SourceText))
    (d : List Diagnostic) (w : List String) :
    files.foldl
        (fun acc f =>
          let r := lint heavy f.1 f.2 acc.1
          (r.1, acc.2 ++ r.2))
        (d, w)
      = (d ++ (lintFiles heavy files).1, w ++ (lintFiles heavy files).2) := by
  induction files generalizing d w with
  | nil => simp [lintFiles]
  | cons f rest ih =>
    simp only [lintFiles, List.foldl_cons]
    rw [lint_decomp heavy f.1 f.2 d, lint_decomp heavy f.1 f.2 []]
    simp only [List.nil_append, List.append_nil]
    rw [ih, ih]
    simp

theorem lintFiles_append (heavy : List String) (l1 l2 : List (String × SourceText)) :
    lintFiles heavy (l1 ++ l2)
      = ((lintFiles heavy l1).1 ++ (lintFiles heavy l2).1,
         (lintFiles heavy l1).2 ++ (lintFiles heavy l2).2) := by
  have h2 := lintFiles_foldl heavy l2 (lintFiles heavy l1).1 (lintFiles heavy l1).2
  have e1 : lintFiles heavy (l1 ++ l2)
      = l2.foldl
          (fun acc f =>
            let r := lint heavy f.1 f.2 acc.1
            (r.1, acc.2 ++ r.2))
          (lintFiles heavy l1) := by
    simp only [lintFiles, List.foldl_append]
  rw [e1]
  exact h2

/-! ### Claim theorems -/

/-- Boolean absorption used to normalize the matcher's redundant scoped
clause. -/
theorem bool_orAbsorb (a b c : Bool) : ((a || b) || (c && a)) = (a || b) := by
  cases a <;> cases b <;> cases c <;> rfl

/-- C2 (counterexample): the claim asserts `isHeavy("@myorg/webpack",
{"webpack"})` is true, but the code returns false (the scoped-wrapping
clause only matches the literal scope `@webpack/`); and for a dependency
already starting with `@` the code also matches the `"@" + d + "/"` shape
(here `@@babel/core/x`), which the claimed iff — whose scoped-wrapping
clause is restricted to `d` without a leading `@` — declares non-heavy. -/
theorem isHeavyClaim_counterexample :
    isHeavyDependencyWith ["webpack"] "@myorg/webpack" = false
  ∧ isHeavyDependencyWith ["@babel/core"] "@@babel/core/x" = true
  ∧ isHeavySpecClaim ["@babel/core"] "@@babel/core/x" = false := by
  refine ⟨by decide, by decide, by decide⟩

/-- C2 (amended): `isHeavy(s, H)` is true iff `s ∈ H`, or `s` starts with
`d + "/"` for some `d ∈ H`, or `s` starts with `"@" + d + "/"` for some
`d ∈ H` — the last clause applying to every `d`, not only those without a
leading `@`; there is no partial-word matching (`webpackx` does not match
`webpack`), sub-paths and scoped names match (`webpack/lib/Foo`,
`@babel/core`), and `@myorg/webpack` does not match `webpack`. -/
theorem isHeavy_characterization :
    (∀ (heavy : List String) (s : String),
      isHeavyDependencyWith heavy s = isHeavyAmendedSpec heavy s)
  ∧ isHeavyDependencyWith ["webpack"] "webpackx" = false
  ∧ isHeavyDependencyWith ["webpack"] "webpack/lib/Foo" = true
  ∧ isHeavyDependencyWith ["@babel/core"] "@babel/core" = true
  ∧ isHeavyDependencyWith ["webpack"] "@myorg/webpack" = false
  ∧ isHeavyDependencyWith ["webpack"] "@webpack/fork" = true := by
  refine ⟨fun heavy s => ?_, by decide, by decide, by decide, by decide, by decide⟩
  unfold isHeavyDependencyWith isHeavyAmendedSpec
  congr 1
  induction heavy with
  | nil => rfl
  | cons dep rest ih => simp only [List.any_cons, ih, bool_orAbsorb]

/-- C3: the traversal's depth counter is balanced — after walking any tree
it returns to its pre-traversal value (in particular 0 for the walk
`checkLazyImportHeavyDeps` starts), and every recursive visit below a tree
entered at depth 0 happens at a non-negative depth. -/
theorem depth_balanced (heavy : List String) (t : Node) :
    (∀ st : WalkState, (walkNode heavy t st).depth = st.depth)
  ∧ (walkNode heavy t initialWalkState).depth = 0
  ∧ (∀ x ∈ nodeEntryDepths t 0, 0 ≤ x) := by
  refine ⟨fun st => ?_, ?_, nodeEntryDepths_lower t 0⟩
  · rw [walkNode_eq]
  · rw [walkNode_initial]

/-- C3 (witness): the balance facts evaluated on a concrete tree with a
nested function. -/
theorem depth_balanced_witness :
    (∀ st : WalkState,
      (walkNode HEAVY_DEPENDENCIES
        (programNode (.ncons (functionWrapNode (requireCallNode "lodash")) .nil)) st).depth
        = st.depth)
  ∧ (walkNode HEAVY_DEPENDENCIES
      (programNode (.ncons (functionWrapNode (requireCallNode "lodash")) .nil))
      initialWalkState).depth = 0
  ∧ (∀ x ∈ nodeEntryDepths
      (programNode (.ncons (functionWrapNode (requireCallNode "lodash")) .nil)) 0,
      0 ≤ x) :=
  depth_balanced HEAVY_DEPENDENCIES
    (programNode (.ncons (functionWrapNode (requireCallNode "lodash")) .nil))

/-- Over an empty heavy list nothing is heavy. -/
theorem isHeavyDependencyWith_nil (s : String) : isHeavyDependencyWith [] s = false :=
  rfl

/-- Over an empty heavy list no site routes anywhere. -/
theorem siteTopTarget_nil (x : Site) : siteTopTarget [] x = none := by
  unfold siteTopTarget
  cases x.form <;> simp [isHeavyDependencyWith_nil]

/-- Over an empty heavy list a file contributes no diagnostics. -/
theorem fileDiagnostics_nil (t : Node) (filePath : String) :
    fileDiagnostics [] t filePath = [] := by
  unfold fileDiagnostics
  rw [walkNode_initial]
  have h : (nodeSites t 0).filterMap (siteTopTarget []) = [] := by
    simp [List.filterMap_eq_nil_iff, siteTopTarget_nil]
  rw [h]
  rfl

/-- C8: with an empty configured heavy-dependency set the analysis yields
zero diagnostics for every file, whatever imports and `require` calls its
tree contains — `isHeavyDependency` rejects every specifier over the empty
set, so the walk's `topLevelImports` set stays empty and `lint` leaves the
error list unchanged. -/
theorem empty_heavy_set_no_diagnostics (t : Node) (filePath : String)
    (content : SourceText) (errors : List Diagnostic) :
    isHeavyDependencyWith [] "webpack" = false
  ∧ fileDiagnostics [] t filePath = []
  ∧ (lint [] filePath content errors).1 = errors := by
  refine ⟨rfl, fileDiagnostics_nil t filePath, ?_⟩
  unfold lint checkLazyImportHeavyDeps
  cases hm : acornParse moduleParseOptions content with
  | some ast => simp [fileDiagnostics_nil]
  | none =>
    cases hs : acornParse scriptParseOptions content with
    | some ast => simp [fileDiagnostics_nil]
    | none => rfl

/-- C9: visiting a node whose type is neither `ImportDeclaration` nor
`CallExpression` leaves both accumulator sets (and the whole walk state)
untouched and contributes no import site — in particular acorn's
`ImportExpression` node kind is never recorded, since the classifier only
recognizes dynamic import as a `CallExpression` with an `Import` callee. -/
theorem non_import_nodes_add_nothing (heavy : List String) (n : Node)
    (st : WalkState) (d : Int)
    (h1 : n.ty ≠ "ImportDeclaration") (h2 : n.ty ≠ "CallExpression") :
    classifyNode heavy n st = st ∧ nodeOwnSites n d = [] := by
  unfold classifyNode nodeOwnSites
  simp [h1, h2]

/-- C9 (witness): an `ImportExpression` node (with its dynamic-import
operand) is classified as a no-op at top level. -/
theorem non_import_nodes_add_nothing_witness :
    importExpressionSample.ty ≠ "ImportDeclaration"
  ∧ importExpressionSample.ty ≠ "CallExpression"
  ∧ classifyNode HEAVY_DEPENDENCIES importExpressionSample initialWalkState
      = initialWalkState
  ∧ nodeOwnSites importExpressionSample 0 = [] := by
  refine ⟨by decide, by decide, ?_, ?_⟩
  · exact (non_import_nodes_add_nothing HEAVY_DEPENDENCIES importExpressionSample
      initialWalkState 0 (by decide) (by decide)).1
  · exact (non_import_nodes_add_nothing HEAVY_DEPENDENCIES importExpressionSample
      initialWalkState 0 (by decide) (by decide)).2

/-- C10: the walk terminates on every finite tree — under the fueled
semantics, which makes no termination assumption, a fuel budget equal to the
tree's structural size suffices for `checkLazyImportHeavyDeps` to return,
and it returns exactly the total function's answer. -/
theorem walk_terminates (heavy : List String) (t : Node) (filePath : String)
    (errors : List Diagnostic) :
    checkLazyImportHeavyDepsFuel t.sizeN heavy t filePath errors
      = some (checkLazyImportHeavyDeps heavy t filePath errors) := by
  unfold checkLazyImportHeavyDepsFuel checkLazyImportHeavyDeps fileDiagnostics
  rw [walkNodeFuel_adequate heavy t initialWalkState t.sizeN (le_refl _)]

/-- Counting a specifier's diagnostic equals counting the specifier in the
final `topLevelImports` set. -/
theorem count_fileDiagnostics (heavy : List String) (t : Node) (filePath s : String) :
    (fileDiagnostics heavy t filePath).count (mkDiagnostic filePath s)
      = ((walkNode heavy t initialWalkState).topLevelImports).count s := by
  unfold fileDiagnostics
  exact List.count_map_of_injective _ _
    (fun a b h => mkDiagnostic_injective filePath h) _

/-- C1: a `require("webpack")` call at depth 0 yields exactly one diagnostic
for `webpack`; if every `webpack` site of a file is a `require` call nested
inside a function (depth > 0), it yields no `webpack` diagnostic; and every
emitted diagnostic carries the rule `lazy-import-heavy-js-deps`, the file's
path, and severity `warning`. -/
theorem require_webpack_top_level (t : Node) (filePath : String) :
    (((⟨.requireCall, "webpack", 0⟩ : Site) ∈ nodeSites t 0) →
      (fileDiagnostics HEAVY_DEPENDENCIES t filePath).count
        (mkDiagnostic filePath "webpack") = 1)
  ∧ ((∀ x ∈ nodeSites t 0, x.spec = "webpack" →
        x.form = SiteForm.requireCall ∧ x.depth ≠ 0) →
      (fileDiagnostics HEAVY_DEPENDENCIES t filePath).count
        (mkDiagnostic filePath "webpack") = 0)
  ∧ (∀ dg ∈ fileDiagnostics HEAVY_DEPENDENCIES t filePath,
      dg.rule = "lazy-import-heavy-js-deps" ∧ dg.file = filePath ∧
        dg.severity = "warning") := by
  refine ⟨?_, ?_, ?_⟩
  · intro hmem
    rw [count_fileDiagnostics]
    apply List.count_eq_one_of_mem (nodup_topLevelImports HEAVY_DEPENDENCIES t)
    rw [mem_topLevelImports]
    exact ⟨⟨.requireCall, "webpack", 0⟩, hmem, by decide⟩
  · intro hall
    rw [count_fileDiagnostics]
    apply List.count_eq_zero_of_not_mem
    rw [mem_topLevelImports]
    rintro ⟨x, hx, htar⟩
    have hspec := siteTopTarget_spec htar
    obtain ⟨hf, hd⟩ := hall x hx hspec
    rcases x with ⟨form, spec, dep⟩
    simp only at hf hd
    subst hf
    simp [siteTopTarget, hd] at htar
  · intro dg hdg
    unfold fileDiagnostics at hdg
    rcases List.mem_map.mp hdg with ⟨m, _, rfl⟩
    exact ⟨rfl, rfl, rfl⟩

/-- C1 (witness): a file with `require("webpack")` at top level gets exactly
one `webpack` diagnostic; a file whose only `webpack` site sits inside a
function body gets none. -/
theorem require_webpack_top_level_witness :
    ((⟨.requireCall, "webpack", 0⟩ : Site) ∈
      nodeSites (programNode (.ncons (requireCallNode "webpack") .nil)) 0)
  ∧ (fileDiagnostics HEAVY_DEPENDENCIES
      (programNode (.ncons (requireCallNode "webpack") .nil)) "lib/a.js").count
        (mkDiagnostic "lib/a.js" "webpack") = 1
  ∧ (∀ x ∈ nodeSites
        (programNode (.ncons (functionWrapNode (requireCallNode "webpack")) .nil)) 0,
      x.spec = "webpack" → x.form = SiteForm.requireCall ∧ x.depth ≠ 0)
  ∧ (fileDiagnostics HEAVY_DEPENDENCIES
      (programNode (.ncons (functionWrapNode (requireCallNode "webpack")) .nil))
      "lib/b.js").count (mkDiagnostic "lib/b.js" "webpack") = 0 :=
  ⟨by decide,
   (require_webpack_top_level
     (programNode (.ncons (requireCallNode "webpack") .nil)) "lib/a.js").1 (by decide),
   by decide,
   (require_webpack_top_level
     (programNode (.ncons (functionWrapNode (requireCallNode "webpack")) .nil))
     "lib/b.js").2.1 (by decide)⟩

/-- C4: a dynamic-import call with a literal string argument never yields a
diagnostic — a specifier whose sites are all dynamic-import sites never
enters `topLevelImports` and gets no diagnostic, while a heavy
dynamic-import target is added to `lazyImports` whatever its depth,
including depth 0. -/
theorem dynamic_import_never_flagged (heavy : List String) (t : Node)
    (filePath s : String) :
    ((∀ x ∈ nodeSites t 0, x.spec = s → x.form = SiteForm.dynamicImport) →
      s ∉ (walkNode heavy t initialWalkState).topLevelImports
      ∧ (fileDiagnostics heavy t filePath).count (mkDiagnostic filePath s) = 0)
  ∧ (∀ d : Int, (⟨.dynamicImport, s, d⟩ : Site) ∈ nodeSites t 0 →
      isHeavyDependencyWith heavy s = true →
      s ∈ (walkNode heavy t initialWalkState).lazyImports) := by
  constructor
  · intro hall
    have hnot : s ∉ (walkNode heavy t initialWalkState).topLevelImports := by
      rw [mem_topLevelImports]
      rintro ⟨x, hx, htar⟩
      have hspec := siteTopTarget_spec htar
      have hf := hall x hx hspec
      rcases x with ⟨form, spec, dep⟩
      simp only at hf
      subst hf
      simp [siteTopTarget] at htar
    refine ⟨hnot, ?_⟩
    rw [count_fileDiagnostics]
    exact List.count_eq_zero_of_not_mem hnot
  · intro d hmem hheavy
    rw [mem_lazyImports]
    exact ⟨⟨.dynamicImport, s, d⟩, hmem, by simp [siteLazyTarget, hheavy]⟩

/-- C4 (witness): a top-level dynamic `import("lodash")` produces no
diagnostic but lands in `lazyImports`. -/
theorem dynamic_import_never_flagged_witness :
    (∀ x ∈ nodeSites (programNode (.ncons (dynamicImportCallNode "lodash") .nil)) 0,
      x.spec = "lodash" → x.form = SiteForm.dynamicImport)
  ∧ "lodash" ∉ (walkNode HEAVY_DEPENDENCIES
      (programNode (.ncons (dynamicImportCallNode "lodash") .nil))
      initialWalkState).topLevelImports
  ∧ (fileDiagnostics HEAVY_DEPENDENCIES
      (programNode (.ncons (dynamicImportCallNode "lodash") .nil)) "lib/c.js").count
        (mkDiagnostic "lib/c.js" "lodash") = 0
  ∧ ((⟨.dynamicImport, "lodash", 0⟩ : Site) ∈
      nodeSites (programNode (.ncons (dynamicImportCallNode "lodash") .nil)) 0)
  ∧ isHeavyDependencyWith HEAVY_DEPENDENCIES "lodash" = true
  ∧ "lodash" ∈ (walkNode HEAVY_DEPENDENCIES
      (programNode (.ncons (dynamicImportCallNode "lodash") .nil))
      initialWalkState).lazyImports :=
  ⟨by decide,
   ((dynamic_import_never_flagged HEAVY_DEPENDENCIES
     (programNode (.ncons (dynamicImportCallNode "lodash") .nil))
     "lib/c.js" "lodash").1 (by decide)).1,
   ((dynamic_import_never_flagged HEAVY_DEPENDENCIES
     (programNode (.ncons (dynamicImportCallNode "lodash") .nil))
     "lib/c.js" "lodash").1 (by decide)).2,
   by decide,
   by decide,
   (dynamic_import_never_flagged HEAVY_DEPENDENCIES
     (programNode (.ncons (dynamicImportCallNode "lodash") .nil))
     "lib/c.js" "lodash").2 0 (by decide) (by decide)⟩

/-- C5: a heavy specifier required at top level more than once still yields
exactly one diagnostic (the accumulator is a set, hence deduplicated). -/
theorem duplicate_top_level_dedup (heavy : List String) (t : Node)
    (filePath s : String)
    (hheavy : isHeavyDependencyWith heavy s = true)
    (hcount : 2 ≤ (nodeSites t 0).count (⟨.requireCall, s, 0⟩ : Site)) :
    (fileDiagnostics heavy t filePath).count (mkDiagnostic filePath s) = 1 := by
  have hmem : (⟨.requireCall, s, 0⟩ : Site) ∈ nodeSites t 0 :=
    List.count_pos_iff.mp (by omega)
  rw [count_fileDiagnostics]
  apply List.count_eq_one_of_mem (nodup_topLevelImports heavy t)
  rw [mem_topLevelImports]
  exact ⟨⟨.requireCall, s, 0⟩, hmem, by simp [siteTopTarget, hheavy]⟩

/-- C5 (witness): `require("react")` twice at top level yields exactly one
`react` diagnostic. -/
theorem duplicate_top_level_dedup_witness :
    isHeavyDependencyWith HEAVY_DEPENDENCIES "react" = true
  ∧ 2 ≤ (nodeSites
      (programNode (.ncons (requireCallNode "react")
        (.ncons (requireCallNode "react") .nil))) 0).count
      (⟨.requireCall, "react", 0⟩ : Site)
  ∧ (fileDiagnostics HEAVY_DEPENDENCIES
      (programNode (.ncons (requireCallNode "react")
        (.ncons (requireCallNode "react") .nil))) "lib/d.js").count
      (mkDiagnostic "lib/d.js" "react") = 1 :=
  ⟨by decide, by decide,
   duplicate_top_level_dedup HEAVY_DEPENDENCIES
     (programNode (.ncons (requireCallNode "react")
       (.ncons (requireCallNode "react") .nil))) "lib/d.js" "react"
     (by decide) (by decide)⟩

/-- C6: a file failing both parse attempts contributes no diagnostics —
only a logged warning — and the rest of the batch is analyzed exactly as if
the failing file were absent: the accumulated diagnostics equal those of
the batch without it, and the warning stream interleaves that file's
warning between its neighbors' warnings. -/
theorem parse_failure_isolated (heavy : List String)
    (pre post : List (String × SourceText)) (p : String) (c : SourceText)
    (h1 : acornParse moduleParseOptions c = none)
    (h2 : acornParse scriptParseOptions c = none) :
    (lintFiles heavy (pre ++ (p, c) :: post)).1 = (lintFiles heavy (pre ++ post)).1
  ∧ (lintFiles heavy (pre ++ (p, c) :: post)).2
      = (lintFiles heavy pre).2
        ++ ("Unable to parse " ++ p ++ ": " ++ c.parseErrorMsg)
        :: (lintFiles heavy post).2 := by
  have hsingle : lintFiles heavy [(p, c)]
      = ([], ["Unable to parse " ++ p ++ ": " ++ c.parseErrorMsg]) := by
    unfold lintFiles
    simp [lint_bothFail heavy p c [] h1 h2]
  have hsplit : pre ++ (p, c) :: post = (pre ++ [(p, c)]) ++ post := by simp
  rw [hsplit, lintFiles_append heavy (pre ++ [(p, c)]) post,
    lintFiles_append heavy pre [(p, c)], lintFiles_append heavy pre post, hsingle]
  simp

/-- C6 (witness): in a three-file batch whose middle file is unparsable
garbage, the diagnostics are those of the two good files and the garbage
file contributes exactly its warning line. -/
theorem parse_failure_isolated_witness :
    acornParse moduleParseOptions garbageSample = none
  ∧ acornParse scriptParseOptions garbageSample = none
  ∧ ((lintFiles HEAVY_DEPENDENCIES
        ([("lib/a.js", plainSource (programNode (.ncons (requireCallNode "webpack") .nil)))]
          ++ ("lib/bad.js", garbageSample)
          :: [("lib/c.js", plainSource (programNode (.ncons (requireCallNode "lodash") .nil)))])).1
      = (lintFiles HEAVY_DEPENDENCIES
          ([("lib/a.js", plainSource (programNode (.ncons (requireCallNode "webpack") .nil)))]
            ++ [("lib/c.js", plainSource (programNode (.ncons (requireCallNode "lodash") .nil)))])).1
    ∧ (lintFiles HEAVY_DEPENDENCIES
        ([("lib/a.js", plainSource (programNode (.ncons (requireCallNode "webpack") .nil)))]
          ++ ("lib/bad.js", garbageSample)
          :: [("lib/c.js", plainSource (programNode (.ncons (requireCallNode "lodash") .nil)))])).2
      = (lintFiles HEAVY_DEPENDENCIES
          [("lib/a.js", plainSource (programNode (.ncons (requireCallNode "webpack") .nil)))]).2
        ++ ("Unable to parse " ++ "lib/bad.js" ++ ": " ++ garbageSample.parseErrorMsg)
        :: (lintFiles HEAVY_DEPENDENCIES
            [("lib/c.js", plainSource (programNode (.ncons (requireCallNode "lodash") .nil)))]).2) :=
  ⟨rfl, rfl,
   parse_failure_isolated HEAVY_DEPENDENCIES
     [("lib/a.js", plainSource (programNode (.ncons (requireCallNode "webpack") .nil)))]
     [("lib/c.js", plainSource (programNode (.ncons (requireCallNode "lodash") .nil)))]
     "lib/bad.js" garbageSample rfl rfl⟩

/-- C7 (counterexample): the claim says source with a top-level `return`
is analyzed via the second (script-syntax) attempt because the module
attempt fails on it; but the first parse attempt is configured with
`allowReturnOutsideFunction: true` (line 51), so on such source the module
attempt already succeeds and the fallback is never consulted. -/
theorem module_attempt_accepts_top_level_return :
    topLevelReturnSample.topLevelReturn = true
  ∧ moduleParseOptions.allowReturnOutsideFunction = true
  ∧ acornParse moduleParseOptions topLevelReturnSample
      = some topLevelReturnSample.tree :=
  ⟨rfl, rfl, rfl⟩

/-- C7 (amended): source using a top-level `return` (and otherwise
well-formed) is analyzed successfully, but via the first (module-syntax)
parse attempt — which the linter configures with
`allowReturnOutsideFunction: true` — not via the script fallback. -/
theorem top_level_return_first_attempt (heavy : List String) (filePath : String)
    (src : SourceText) (errors : List Diagnostic)
    (hret : src.topLevelReturn = true)
    (hok : src.fatalSyntaxError = false) :
    acornParse moduleParseOptions src = some src.tree
  ∧ lint heavy filePath src errors
      = (checkLazyImportHeavyDeps heavy src.tree filePath errors, []) := by
  have hparse : acornParse moduleParseOptions src = some src.tree := by
    unfold acornParse
    simp [moduleParseOptions, hok]
  refine ⟨hparse, ?_⟩
  unfold lint
  rw [hparse]

/-- C7 (witness): the amended behavior on a concrete top-level-`return`
source. -/
theorem top_level_return_first_attempt_witness :
    topLevelReturnSample.topLevelReturn = true
  ∧ topLevelReturnSample.fatalSyntaxError = false
  ∧ (acornParse moduleParseOptions topLevelReturnSample
        = some topLevelReturnSample.tree
     ∧ lint HEAVY_DEPENDENCIES "lib/r.js" topLevelReturnSample []
        = (checkLazyImportHeavyDeps HEAVY_DEPENDENCIES topLevelReturnSample.tree
            "lib/r.js" [], [])) :=
  ⟨rfl, rfl,
   top_level_return_first_attempt HEAVY_DEPENDENCIES "lib/r.js"
     topLevelReturnSample [] rfl rfl⟩

end Dusty
